import Mathlib

/-!
Verification of the Miles rate limiter (`src/miles/rate_limiter.py`).

The Python module implements a sliding-window + burst rate limiter with two
backends: an in-memory "local" backend (`_check_local_limit`, a per-key deque
of float timestamps plus a per-key burst-token counter) and a Redis-backed
"shared" backend (`_check_redis_limit`, a per-key sorted set of timestamps
keyed by `str(timestamp)` plus a `:burst` counter key with a TTL).

This file shallowly embeds both backends and the `RateLimiter` facade
(`set_limit`, `is_allowed`, `get_stats`).  Timestamps (Python floats produced
by `time.time()`) are modelled as rationals; Python `int` values are modelled
as `ℤ`; Python's `int()` float truncation is `pyInt` (truncation toward zero).
-/

namespace Miles

/-- Python `int(q)`: truncation of a rational toward zero
(`q.num.tdiv q.den`, where `tdiv` is ℤ-division rounding toward zero). -/
def pyInt (q : ℚ) : ℤ := q.num.tdiv q.den

/-- The `RateLimit` dataclass: `requests` allowed per `window` seconds, plus
an instantaneous `burst` capacity.  All three fields are Python ints. -/
structure RateLimit where
  requests : ℤ
  window : ℤ
  burst : ℤ
deriving DecidableEq

/-- The metadata dictionary returned by a check, together with the
`allowed` boolean.  `burstUsed := false` models the absence of the
`"burst_used"` key; `retryAfter := none` models the absence of
`"retry_after"` (only present on denial). -/
structure Decision where
  allowed : Bool
  remaining : ℤ
  resetTime : ℚ
  burstUsed : Bool
  retryAfter : Option ℤ
deriving DecidableEq

/-- Per-key state of the local backend: the `local_buckets[key]` deque
(front of the list = left end of the deque) and the `local_burst_tokens`
entry for the key (`none` when the key has never been written, in which
case `_check_local_limit` reads it as `limit.burst` via `.get`). -/
structure LocalState where
  bucket : List ℚ
  burstTokens : Option ℤ
deriving DecidableEq

/-- Fresh per-key local state: empty deque, no stored burst-token entry. -/
def LocalState.init : LocalState := ⟨[], none⟩

/-- The `while bucket and bucket[0] < window_start: bucket.popleft()` loop:
drop elements from the front while they are strictly below `windowStart`,
stopping at the first element that is not. -/
def pruneBucket (windowStart : ℚ) : List ℚ → List ℚ
  | [] => []
  | t :: ts => if t < windowStart then pruneBucket windowStart ts else t :: ts

/-- Python `_check_local_limit(key, limit, cost)` at time `now` on the state of one
key: prune, then try the burst path (`burst_tokens >= cost`: decrement the
counter by `cost` and append one timestamp), then the regular path
(`len(bucket) + cost <= limit.requests`: append `cost` timestamps and refill
the burst counter to `limit.burst`), else deny without mutating anything
beyond the pruning, with `retry_after = max(1, min(window, int(window -
(now - bucket[0]))))` (just `window` when the pruned bucket is empty). -/
def localCheck (limit : RateLimit) (cost : ℤ) (now : ℚ) (st : LocalState) :
    Decision × LocalState :=
  let windowStart : ℚ := now - (limit.window : ℚ)
  let bucket := pruneBucket windowStart st.bucket
  let burstTokens := st.burstTokens.getD limit.burst
  if cost ≤ burstTokens then
    let bucket' := bucket ++ [now]
    (⟨true, limit.requests - (bucket'.length : ℤ), now + (limit.window : ℚ),
      true, none⟩,
     ⟨bucket', some (burstTokens - cost)⟩)
  else if (bucket.length : ℤ) + cost ≤ limit.requests then
    let bucket' := bucket ++ List.replicate cost.toNat now
    (⟨true, limit.requests - (bucket'.length : ℤ), now + (limit.window : ℚ),
      false, none⟩,
     ⟨bucket', some limit.burst⟩)
  else
    let retryAfter : ℤ :=
      match bucket with
      | [] => limit.window
      | t :: _ => min limit.window (pyInt ((limit.window : ℚ) - (now - t)))
    (⟨false, 0, now + (limit.window : ℚ), false, some (max 1 retryAfter)⟩,
     ⟨bucket, st.burstTokens⟩)

/-- Run a sequence of `(now, cost)` local checks on one key, returning the
final per-key state. -/
def localRun (limit : RateLimit) : List (ℚ × ℤ) → LocalState → LocalState
  | [], st => st
  | (now, cost) :: rest, st =>
      localRun limit rest (localCheck limit cost now st).2

/-- The admit/deny decisions of a sequence of `(now, cost)` local checks. -/
def localDecisions (limit : RateLimit) : List (ℚ × ℤ) → LocalState → List Bool
  | [], _ => []
  | (now, cost) :: rest, st =>
      (localCheck limit cost now st).1.allowed ::
        localDecisions limit rest (localCheck limit cost now st).2

/-!
## The Redis (shared) backend

`_check_redis_limit` stores, per key, a sorted set of timestamps whose
members are the strings `str(current_time)` scored by the timestamp itself,
and a separate `:burst` counter key.  Both carry a TTL of `limit.window`
seconds, renewed on writes.  Since `str` is injective on floats, the sorted
set is modelled as a duplicate-free list of rationals; the TTL of each key is
an absolute expiry deadline (Redis drops a key once the current time exceeds
the deadline, so a key is live at `now` iff `now ≤ deadline`).
-/

/-- State of the Redis keys backing one rate-limit key: the sorted set
`key` with its expiry deadline, and the counter `key:burst` with its expiry
deadline.  `none` expiry means no TTL set; `none` burst means absent key. -/
structure RedisState where
  zset : List ℚ
  zsetExpiry : Option ℚ
  burst : Option ℤ
  burstExpiry : Option ℚ
deriving DecidableEq

/-- Fresh Redis state: both keys absent. -/
def RedisState.init : RedisState := ⟨[], none, none, none⟩

/-- A key with expiry deadline `expiry` is still live at time `now`
(Redis removes the key once `now` exceeds the deadline). -/
def liveAt (now : ℚ) (expiry : Option ℚ) : Bool :=
  match expiry with
  | none => true
  | some e => decide (now ≤ e)

/-- Redis `ZADD key {str(t): t}` on the modelled sorted set: inserts the member
if it is not already present (the same float always maps to the same
member string, so re-adding replaces rather than duplicates). -/
def zaddTs (t : ℚ) (zs : List ℚ) : List ℚ := if t ∈ zs then zs else zs ++ [t]

/-- Redis `ZREMRANGEBYSCORE key lo hi`: remove every member whose score lies in
the inclusive range `[lo, hi]`. -/
def zremRange (lo hi : ℚ) (zs : List ℚ) : List ℚ :=
  zs.filter fun s => !(decide (lo ≤ s) && decide (s ≤ hi))

/-- Redis `ZRANGE key 0 0 WITHSCORES`: the member with the smallest score, if any. -/
def zsetMin : List ℚ → Option ℚ
  | [] => none
  | t :: ts => some (ts.foldl min t)

/-- The sorted set as visible at time `now` (empty once its TTL lapsed). -/
def liveZset (now : ℚ) (st : RedisState) : List ℚ :=
  if liveAt now st.zsetExpiry then st.zset else []

/-- The sorted set's TTL as visible at time `now` (gone once lapsed). -/
def liveZsetExpiry (now : ℚ) (st : RedisState) : Option ℚ :=
  if liveAt now st.zsetExpiry then st.zsetExpiry else none

/-- The first Redis pipeline of `_check_redis_limit`:
`ZREMRANGEBYSCORE key 0 window_start` followed by `ZCARD key`, executed
atomically.  Returns the post-prune cardinality (`current_count`) and the
updated store.  An empty sorted set means the key is gone (no TTL). -/
def redisPrunePhase (limit : RateLimit) (now : ℚ) (st : RedisState) :
    ℕ × RedisState :=
  let z1 := zremRange 0 (now - (limit.window : ℚ)) (liveZset now st)
  (z1.length,
   { st with
     zset := z1
     zsetExpiry := if z1.isEmpty then none else liveZsetExpiry now st })

/-- The burst-counter key as visible at time `now` (absent once lapsed). -/
def liveBurst (now : ℚ) (st : RedisState) : Option ℤ :=
  if liveAt now st.burstExpiry then st.burst else none

/-- Python `int(self.redis.get(burst_key) or limit.burst)`: the stored counter if
the key is live (the string `"0"` is truthy in Python, so a stored zero is
used as-is), else the policy's burst capacity. -/
def redisBurstRead (limit : RateLimit) (now : ℚ) (st : RedisState) : ℤ :=
  (liveBurst now st).getD limit.burst

/-- The branch-and-commit part of `_check_redis_limit`, taking the
`current_count` and `burst_tokens` values read earlier (possibly stale under
interleaving) and the store as it is at commit time.

Burst path (`burst_tokens > 0 and cost <= burst_tokens`): `DECRBY` the
counter by `cost` (a missing counter key is treated as `0` by `DECRBY`),
re-`EXPIRE` it, `ZADD` one member at `now`, re-`EXPIRE` the sorted set.
Regular path (`current_count + cost <= requests`): `ZADD` the member at
`now` once per unit of cost (all identical), `EXPIRE`, and if
`burst_tokens < limit.burst` refresh the counter with
`SETEX burst_key window limit.burst`.  Otherwise deny without writing;
`retry_after` is computed from the smallest remaining score. -/
def redisCommit (limit : RateLimit) (cost : ℤ) (now : ℚ) (count : ℕ)
    (burstTokens : ℤ) (st : RedisState) : Decision × RedisState :=
  if 0 < burstTokens ∧ cost ≤ burstTokens then
    let stored := (liveBurst now st).getD 0
    let z2 := zaddTs now st.zset
    (⟨true, limit.requests - (count : ℤ), now + (limit.window : ℚ),
      true, none⟩,
     ⟨z2, some (now + (limit.window : ℚ)), some (stored - cost),
      some (now + (limit.window : ℚ))⟩)
  else if (count : ℤ) + cost ≤ limit.requests then
    let z2 := if cost ≤ 0 then st.zset else zaddTs now st.zset
    let st1 : RedisState :=
      { st with
        zset := z2
        zsetExpiry := if z2.isEmpty then none else some (now + (limit.window : ℚ)) }
    let st2 : RedisState :=
      if burstTokens < limit.burst then
        { st1 with
          burst := some limit.burst
          burstExpiry := some (now + (limit.window : ℚ)) }
      else st1
    (⟨true, limit.requests - (count : ℤ) - cost, now + (limit.window : ℚ),
      false, none⟩,
     st2)
  else
    let retryAfter : ℤ :=
      match zsetMin st.zset with
      | none => limit.window
      | some t => min limit.window (pyInt ((limit.window : ℚ) - (now - t)))
    (⟨false, 0, now + (limit.window : ℚ), false, some (max 1 retryAfter)⟩,
     st)

/-- A full, uninterleaved `_check_redis_limit` call: prune-and-count
pipeline, burst-counter read, then the branch commit. -/
def redisCheck (limit : RateLimit) (cost : ℤ) (now : ℚ) (st : RedisState) :
    Decision × RedisState :=
  let p1 := redisPrunePhase limit now st
  let tokens := redisBurstRead limit now p1.2
  redisCommit limit cost now p1.1 tokens p1.2

/-- Run a sequence of `(now, cost)` Redis checks, returning the final state. -/
def redisRun (limit : RateLimit) : List (ℚ × ℤ) → RedisState → RedisState
  | [], st => st
  | (now, cost) :: rest, st =>
      redisRun limit rest (redisCheck limit cost now st).2

/-- The admit/deny decisions of a sequence of `(now, cost)` Redis checks. -/
def redisDecisions (limit : RateLimit) : List (ℚ × ℤ) → RedisState → List Bool
  | [], _ => []
  | (now, cost) :: rest, st =>
      (redisCheck limit cost now st).1.allowed ::
        redisDecisions limit rest (redisCheck limit cost now st).2

/-- Two concurrent `_check_redis_limit` calls for the same key, interleaved
check-then-act: the code issues the prune-and-count pipeline, the burst-key
`GET`, and the branch's write pipeline as separate round trips, so caller B's
prune-and-count can execute between caller A's count and A's commit.  This
def runs the interleaving A-prune, B-prune, A-read, B-read, A-commit,
B-commit and returns the two `allowed` results. -/
def redisRaceDecisions (limit : RateLimit) (cost : ℤ) (now : ℚ)
    (st : RedisState) : Bool × Bool :=
  let a1 := redisPrunePhase limit now st
  let b1 := redisPrunePhase limit now a1.2
  let ta := redisBurstRead limit now b1.2
  let tb := redisBurstRead limit now b1.2
  let a3 := redisCommit limit cost now a1.1 ta b1.2
  let b3 := redisCommit limit cost now b1.1 tb a3.2
  (a3.1.allowed, b3.1.allowed)

/-!
## The `RateLimiter` facade (local mode, `redis_client = None`)

`RateLimiter` holds a policy table `limits` (initialised to `DEFAULT_LIMITS`)
and the local per-key stores.  `is_allowed` looks the policy up, admits
unconditionally with a sentinel when none is configured, and otherwise runs
the active backend on the key `"rate_limit:{limit_type.value}:{identifier}"`.
`set_limit` replaces the policy for a category with no validation.
`get_stats` reports the policy plus a cost-0 `is_allowed` call.
-/

/-- The `RateLimitType` enum. -/
inductive RateLimitType where
  | telegramCommand
  | openaiRequest
  | sourceScan
  | pluginExecution
  | redisOperation
  | userOperation
deriving DecidableEq

/-- Python `RateLimitType.value`: the string payload of each enum member. -/
def RateLimitType.value : RateLimitType → String
  | .telegramCommand => "telegram_command"
  | .openaiRequest => "openai_request"
  | .sourceScan => "source_scan"
  | .pluginExecution => "plugin_execution"
  | .redisOperation => "redis_operation"
  | .userOperation => "user_operation"

/-- The `DEFAULT_LIMITS` table: the built-in policies per category. -/
def DEFAULT_LIMITS : RateLimitType → Option RateLimit
  | .telegramCommand => some ⟨10, 60, 5⟩
  | .openaiRequest => some ⟨20, 60, 3⟩
  | .sourceScan => some ⟨5, 300, 2⟩
  | .pluginExecution => some ⟨30, 60, 10⟩
  | .redisOperation => some ⟨1000, 60, 100⟩
  | .userOperation => some ⟨30, 60, 10⟩

/-- A `RateLimiter` instance running in local mode (`redis_client is None`):
the policy table and the per-key local stores (`local_buckets` and
`local_burst_tokens`, merged here into one map of `LocalState`). -/
structure LocalLimiter where
  limits : RateLimitType → Option RateLimit
  buckets : String → LocalState

/-- A `RateLimiter()` freshly constructed: default policies, empty stores. -/
def LocalLimiter.init : LocalLimiter := ⟨DEFAULT_LIMITS, fun _ => LocalState.init⟩

/-- Python `set_limit(limit_type, limit)`: replace the policy for a category.
The Python method installs the policy unconditionally (no validation). -/
def set_limit (lt : RateLimitType) (l : RateLimit) (rl : LocalLimiter) :
    LocalLimiter :=
  { rl with limits := fun t => if t = lt then some l else rl.limits t }

/-- The key `f"rate_limit:{limit_type.value}:{identifier}"`. -/
def limiterKey (lt : RateLimitType) (ident : String) : String :=
  "rate_limit:" ++ lt.value ++ ":" ++ ident

/-- Python `is_allowed(limit_type, identifier, cost)` at time `now`, in local mode:
no configured policy admits with the `remaining=999, reset_time=now+60`
sentinel and touches no state; otherwise `_check_local_limit` runs on the
key's bucket and the updated bucket is stored back. -/
def is_allowed (lt : RateLimitType) (ident : String) (cost : ℤ) (now : ℚ)
    (rl : LocalLimiter) : (Bool × Decision) × LocalLimiter :=
  match rl.limits lt with
  | none => ((true, ⟨true, 999, now + 60, false, none⟩), rl)
  | some limit =>
      let key := limiterKey lt ident
      let r := localCheck limit cost now (rl.buckets key)
      ((r.1.allowed, r.1),
       { rl with buckets := fun k => if k = key then r.2 else rl.buckets k })

/-- The dictionary returned by `get_stats`. -/
structure StatsReport where
  requestsPerWindow : ℤ
  windowSeconds : ℤ
  burstCapacity : ℤ
  currentlyAllowed : Bool
  decision : Decision
deriving DecidableEq

/-- Python `get_stats(limit_type, identifier)` at time `now`, in local mode:
`none` models the `{"error": "No limit configured"}` reply; otherwise the
policy data plus the result of an `is_allowed` call with `cost=0`
("Cost 0 = just check"), whose state effect is kept. -/
def get_stats (lt : RateLimitType) (ident : String) (now : ℚ)
    (rl : LocalLimiter) : Option StatsReport × LocalLimiter :=
  match rl.limits lt with
  | none => (none, rl)
  | some limit =>
      let r := is_allowed lt ident 0 now rl
      (some ⟨limit.requests, limit.window, limit.burst, r.1.1, r.1.2⟩, r.2)

/-- Invariant of the saturation argument (spec §8, first property): after
`k` admitted instantaneous cost-1 checks on a fresh key, the bucket holds
`k` copies of `now` and the burst-token value read by the next check lies
in `[0, burst]`, with `k + tokens ≤ requests + burst`. -/
def satInv (limit : RateLimit) (now : ℚ) (k : ℕ) (st : LocalState) : Prop :=
  st.bucket = List.replicate k now ∧
  0 ≤ st.burstTokens.getD limit.burst ∧
  st.burstTokens.getD limit.burst ≤ limit.burst ∧
  (k : ℤ) + st.burstTokens.getD limit.burst ≤ limit.requests + limit.burst

/-!
## Helper lemmas
-/

theorem pyInt_intCast (w : ℤ) : pyInt (w : ℚ) = w := by
  unfold pyInt
  rw [Rat.num_intCast, Rat.den_intCast]
  cases w with
  | ofNat m => simp [Int.tdiv, Nat.div_one]
  | negSucc m => simp [Int.tdiv, Nat.div_one, Int.negSucc_eq]

theorem pruneBucket_idem (ws : ℚ) (l : List ℚ) :
    pruneBucket ws (pruneBucket ws l) = pruneBucket ws l := by
  induction l with
  | nil => rfl
  | cons t ts ih =>
      by_cases h : t < ws
      · simpa [pruneBucket, h] using ih
      · simp [pruneBucket, h]

theorem pruneBucket_replicate (ws now : ℚ) (h : ¬ now < ws) (k : ℕ) :
    pruneBucket ws (List.replicate k now) = List.replicate k now := by
  cases k with
  | zero => rfl
  | succ k => simp [List.replicate_succ, pruneBucket, h]

theorem localCheck_burst_eq (limit : RateLimit) (cost : ℤ) (now : ℚ)
    (st : LocalState) (h : cost ≤ st.burstTokens.getD limit.burst) :
    localCheck limit cost now st =
      (⟨true,
        limit.requests -
          (((pruneBucket (now - (limit.window : ℚ)) st.bucket).length : ℤ) + 1),
        now + (limit.window : ℚ), true, none⟩,
       ⟨pruneBucket (now - (limit.window : ℚ)) st.bucket ++ [now],
        some (st.burstTokens.getD limit.burst - cost)⟩) := by
  simp [localCheck, h]

theorem localCheck_regular_eq (limit : RateLimit) (cost : ℤ) (now : ℚ)
    (st : LocalState) (h1 : ¬ cost ≤ st.burstTokens.getD limit.burst)
    (h2 : ((pruneBucket (now - (limit.window : ℚ)) st.bucket).length : ℤ) + cost
            ≤ limit.requests) :
    localCheck limit cost now st =
      (⟨true,
        limit.requests -
          (((pruneBucket (now - (limit.window : ℚ)) st.bucket).length : ℤ) +
            (cost.toNat : ℤ)),
        now + (limit.window : ℚ), false, none⟩,
       ⟨pruneBucket (now - (limit.window : ℚ)) st.bucket ++
          List.replicate cost.toNat now,
        some limit.burst⟩) := by
  simp [localCheck, h1, h2]

theorem localCheck_denied_eq (limit : RateLimit) (cost : ℤ) (now : ℚ)
    (st : LocalState) (h1 : ¬ cost ≤ st.burstTokens.getD limit.burst)
    (h2 : ¬ ((pruneBucket (now - (limit.window : ℚ)) st.bucket).length : ℤ) + cost
            ≤ limit.requests) :
    localCheck limit cost now st =
      (⟨false, 0, now + (limit.window : ℚ), false,
        some (max 1
          (match pruneBucket (now - (limit.window : ℚ)) st.bucket with
           | [] => limit.window
           | t :: _ =>
               min limit.window (pyInt ((limit.window : ℚ) - (now - t)))))⟩,
       ⟨pruneBucket (now - (limit.window : ℚ)) st.bucket, st.burstTokens⟩) := by
  simp [localCheck, h1, h2]

theorem localCheck_pruned (limit : RateLimit) (cost : ℤ) (now : ℚ)
    (st : LocalState) :
    localCheck limit cost now
        ⟨pruneBucket (now - (limit.window : ℚ)) st.bucket, st.burstTokens⟩
      = localCheck limit cost now st := by
  simp only [localCheck, pruneBucket_idem]

/-!
## Claim theorems
-/

/-- C1, counterexample.  Under policy `(requests=2, window=60, burst=0)` the
same three instantaneous cost-1 checks get `[admit, admit, deny]` from the
local backend but `[admit, admit, admit]` from the Redis backend: the Redis
sorted set keys members by `str(timestamp)`, so the second admission at the
same instant collapses into the first member and the third check still counts
only one timestamp in the window.  The claimed algorithmic parity over every
finite call sequence is false. -/
theorem backend_parity_counterexample :
    localDecisions ⟨2, 60, 0⟩ [(0, 1), (0, 1), (0, 1)] LocalState.init
      = [true, true, false] ∧
    redisDecisions ⟨2, 60, 0⟩ [(0, 1), (0, 1), (0, 1)] RedisState.init
      = [true, true, true] := by
  with_unfolding_all decide

/-- C1, amended.  The two backends do produce the same admit/deny decision
for a single check from the fresh per-key state, for every policy with a
non-negative request count, every cost and every time; parity does not
extend to longer sequences (see the counterexample). -/
theorem backend_first_check_parity (limit : RateLimit)
    (h : 0 ≤ limit.requests) (cost : ℤ) (now : ℚ) :
    (localCheck limit cost now LocalState.init).1.allowed
      = (redisCheck limit cost now RedisState.init).1.allowed := by
  have h1 : redisCheck limit cost now RedisState.init
      = redisCommit limit cost now 0 limit.burst RedisState.init := rfl
  rw [h1]
  simp only [localCheck, redisCommit, LocalState.init, RedisState.init,
    pruneBucket, Option.getD_none, List.length_nil, Nat.cast_zero, zero_add,
    Nat.cast_ofNat, CharP.cast_eq_zero]
  split_ifs <;> first | rfl | (exfalso; omega)

/-- C1, witness for the amended theorem at policy `(2, 60, 0)`, cost 1,
time 0. -/
theorem backend_first_check_parity_witness :
    0 ≤ (RateLimit.mk 2 60 0).requests ∧
    (localCheck ⟨2, 60, 0⟩ 1 0 LocalState.init).1.allowed
      = (redisCheck ⟨2, 60, 0⟩ 1 0 RedisState.init).1.allowed :=
  ⟨by decide, backend_first_check_parity ⟨2, 60, 0⟩ (by decide) 1 0⟩

/-- C2.  The spec requires the prune/count/admit/record steps to be atomic
per key, and in the concrete scenario — two concurrent cost-1 checks under
policy `(requests=1, window=60, burst=0)` at the same instant — exactly one
caller may be admitted.  The Redis backend, however, issues the
prune-and-count pipeline and the branch's write pipeline as separate
unprotected round trips, so the check-then-act interleaving admits BOTH
callers (first conjunct), while a sequential execution of the same two
checks admits exactly one (second conjunct).  The code's own comment claims
the pipeline makes the operations atomic; it does not. -/
theorem redis_race_admits_both :
    redisRaceDecisions ⟨1, 60, 0⟩ 1 0 RedisState.init = (true, true) ∧
    redisDecisions ⟨1, 60, 0⟩ [(0, 1), (0, 1)] RedisState.init
      = [true, false] := by
  with_unfolding_all decide

/-- C3.  The method `get_stats` performs an `is_allowed` call with `cost=0`, commented
"Cost 0 = just check", and both the spec and the claim require it to leave
the window state observationally unchanged.  It does not: on the local
backend `burst_tokens >= cost` always holds for `cost=0`, so the probe takes
the burst path and appends a timestamp.  Under policy `(requests=1,
window=60, burst=0)` a fresh key admits a cost-1 check (first conjunct), but
the same check is denied when a single stats probe precedes it (second
conjunct). -/
theorem stats_probe_mutates_decision :
    (is_allowed .userOperation "u" 1 0
        (set_limit .userOperation ⟨1, 60, 0⟩ LocalLimiter.init)).1.1
      = true ∧
    (is_allowed .userOperation "u" 1 0
        (get_stats .userOperation "u" 0
          (set_limit .userOperation ⟨1, 60, 0⟩ LocalLimiter.init)).2).1.1
      = false := by
  with_unfolding_all decide

/-- C6, counterexample.  Burst-path admission with `cost=2` under policy
`(requests=5, window=60, burst=3)` from a fresh key: the claim predicts two
new timestamps and `remaining = requests - current_count = 5`; the code
appends exactly one timestamp (`bucket.append(current_time)` once,
regardless of cost) and returns `remaining = 4` (`requests` minus the bucket
length *after* the append). -/
theorem burst_admission_counterexample :
    localCheck ⟨5, 60, 3⟩ 2 0 LocalState.init
      = (⟨true, 4, 60, true, none⟩, ⟨[0], some 1⟩) ∧
    ¬ ((localCheck ⟨5, 60, 3⟩ 2 0 LocalState.init).2.bucket.length = 2 ∧
       (localCheck ⟨5, 60, 3⟩ 2 0 LocalState.init).1.remaining = 5) := by
  with_unfolding_all decide

/-- C6, amended.  For every check with `cost ≥ 1` admitted via the burst
path (`burst_tokens ≥ cost`), the local backend decrements the burst-token
counter by `cost`, records exactly ONE new timestamp at `now`, and returns
`allowed=true`, `burst_used=true` and
`remaining = requests - (current_count + 1)`, where `current_count` is the
number of unpruned timestamps before the admission was recorded. -/
theorem burst_admission_postcondition (limit : RateLimit) (cost : ℤ)
    (now : ℚ) (st : LocalState) (_hc : 1 ≤ cost)
    (h : cost ≤ st.burstTokens.getD limit.burst) :
    (localCheck limit cost now st).1.allowed = true ∧
    (localCheck limit cost now st).1.burstUsed = true ∧
    (localCheck limit cost now st).2.burstTokens
      = some (st.burstTokens.getD limit.burst - cost) ∧
    (localCheck limit cost now st).2.bucket
      = pruneBucket (now - (limit.window : ℚ)) st.bucket ++ [now] ∧
    (localCheck limit cost now st).1.remaining
      = limit.requests -
          (((pruneBucket (now - (limit.window : ℚ)) st.bucket).length : ℤ) + 1) := by
  rw [localCheck_burst_eq limit cost now st h]
  exact ⟨rfl, rfl, rfl, rfl, rfl⟩

/-- C6, witness for the amended theorem: policy `(5, 60, 3)`, cost 2,
fresh key at time 0. -/
theorem burst_admission_postcondition_witness :
    (1 ≤ (2 : ℤ) ∧
     (2 : ℤ) ≤ (LocalState.init.burstTokens.getD (RateLimit.mk 5 60 3).burst)) ∧
    ((localCheck ⟨5, 60, 3⟩ 2 0 LocalState.init).1.allowed = true ∧
     (localCheck ⟨5, 60, 3⟩ 2 0 LocalState.init).1.burstUsed = true ∧
     (localCheck ⟨5, 60, 3⟩ 2 0 LocalState.init).2.burstTokens
       = some (LocalState.init.burstTokens.getD (RateLimit.mk 5 60 3).burst - 2) ∧
     (localCheck ⟨5, 60, 3⟩ 2 0 LocalState.init).2.bucket
       = pruneBucket (0 - ((RateLimit.mk 5 60 3).window : ℚ))
           LocalState.init.bucket ++ [0] ∧
     (localCheck ⟨5, 60, 3⟩ 2 0 LocalState.init).1.remaining
       = (RateLimit.mk 5 60 3).requests -
           (((pruneBucket (0 - ((RateLimit.mk 5 60 3).window : ℚ))
               LocalState.init.bucket).length : ℤ) + 1)) :=
  ⟨⟨by decide, by decide⟩,
   burst_admission_postcondition ⟨5, 60, 3⟩ 2 0 LocalState.init
     (by decide) (by decide)⟩

/-- C8, counterexample.  Method `set_limit` performs no validation: the
misconfigured policy `(requests=0, window=-5, burst=3)` is installed as-is,
and a subsequent check consults it (the check is admitted through the
invalid policy's burst capacity), contradicting the claim that an invalid
policy is rejected and never consulted. -/
theorem set_limit_no_validation_counterexample :
    (set_limit .telegramCommand ⟨0, -5, 3⟩ LocalLimiter.init).limits
        .telegramCommand = some ⟨0, -5, 3⟩ ∧
    (is_allowed .telegramCommand "global" 1 0
        (set_limit .telegramCommand ⟨0, -5, 3⟩ LocalLimiter.init)).1.1
      = true ∧
    (is_allowed .telegramCommand "global" 1 0
        (set_limit .telegramCommand ⟨0, -5, 3⟩ LocalLimiter.init)).1.2.burstUsed
      = true := by
  with_unfolding_all decide

/-- C8, amended.  Method `set_limit` installs any `RateLimit` unconditionally —
there is no validation step — and every subsequent check on that category
consults the installed policy verbatim. -/
theorem set_limit_installs_unconditionally (lt : RateLimitType)
    (l : RateLimit) (rl : LocalLimiter) (ident : String) (cost : ℤ)
    (now : ℚ) :
    (set_limit lt l rl).limits lt = some l ∧
    (is_allowed lt ident cost now (set_limit lt l rl)).1.2
      = (localCheck l cost now (rl.buckets (limiterKey lt ident))).1 := by
  refine ⟨by simp [set_limit], ?_⟩
  simp [is_allowed, set_limit]

/-- C9.  Implicit claim confirmed at the suggested input: under policy
`(requests=2, window=10, burst=1)`, two instantaneous cost-1 checks are
admitted and leave `requests` timestamps in the window; the third
instantaneous check is admitted via the burst path and its `remaining`
field is `-1 < 0`, because `remaining` is `requests` minus the bucket
length after the new timestamp is appended. -/
theorem admitted_remaining_negative :
    localDecisions ⟨2, 10, 1⟩ [(0, 1), (0, 1)] LocalState.init
      = [true, true] ∧
    (localRun ⟨2, 10, 1⟩ [(0, 1), (0, 1)] LocalState.init).bucket.length = 2 ∧
    (localCheck ⟨2, 10, 1⟩ 1 0
        (localRun ⟨2, 10, 1⟩ [(0, 1), (0, 1)] LocalState.init)).1.allowed
      = true ∧
    (localCheck ⟨2, 10, 1⟩ 1 0
        (localRun ⟨2, 10, 1⟩ [(0, 1), (0, 1)] LocalState.init)).1.burstUsed
      = true ∧
    (localCheck ⟨2, 10, 1⟩ 1 0
        (localRun ⟨2, 10, 1⟩ [(0, 1), (0, 1)] LocalState.init)).1.remaining
      = -1 := by
  with_unfolding_all decide

/-!
## Burst-token bounds along arbitrary runs
-/

theorem localCheck_tokens_step (limit : RateLimit) (cost : ℤ) (now : ℚ)
    (st : LocalState) (hc : 0 ≤ cost) (hB : 0 ≤ limit.burst)
    (h0 : 0 ≤ st.burstTokens.getD limit.burst)
    (h1 : st.burstTokens.getD limit.burst ≤ limit.burst) :
    0 ≤ (localCheck limit cost now st).2.burstTokens.getD limit.burst ∧
    (localCheck limit cost now st).2.burstTokens.getD limit.burst
      ≤ limit.burst := by
  by_cases hb : cost ≤ st.burstTokens.getD limit.burst
  · rw [localCheck_burst_eq limit cost now st hb]
    simp only [Option.getD_some]
    omega
  · by_cases hr : ((pruneBucket (now - (limit.window : ℚ)) st.bucket).length : ℤ)
        + cost ≤ limit.requests
    · rw [localCheck_regular_eq limit cost now st hb hr]
      simp only [Option.getD_some]
      omega
    · rw [localCheck_denied_eq limit cost now st hb hr]
      exact ⟨h0, h1⟩

theorem localRun_tokens_bounds (limit : RateLimit) (hB : 0 ≤ limit.burst) :
    ∀ (run : List (ℚ × ℤ)) (st : LocalState),
      (∀ p ∈ run, 0 ≤ p.2) →
      0 ≤ st.burstTokens.getD limit.burst →
      st.burstTokens.getD limit.burst ≤ limit.burst →
      0 ≤ (localRun limit run st).burstTokens.getD limit.burst ∧
      (localRun limit run st).burstTokens.getD limit.burst ≤ limit.burst := by
  intro run
  induction run with
  | nil => intro st _ h0 h1; exact ⟨h0, h1⟩
  | cons p rest ih =>
      intro st hall h0 h1
      obtain ⟨now, cost⟩ := p
      have hc : 0 ≤ cost := hall (now, cost) (List.mem_cons_self _ _)
      have step := localCheck_tokens_step limit cost now st hc hB h0 h1
      simpa only [localRun] using
        ih (localCheck limit cost now st).2
          (fun q hq => hall q (List.mem_cons_of_mem _ hq)) step.1 step.2

/-- C10.  For every policy with `burst ≥ 0` and every sequence of local
checks with non-negative costs on one key, the burst-token counter (as read
back by `_check_local_limit`, i.e. defaulting to `limit.burst` when never
written) starts at `limit.burst` and always stays in `[0, limit.burst]`:
the burst path only decrements it when it is at least `cost`, and the
regular path resets it to exactly `limit.burst`. -/
theorem burst_tokens_invariant (limit : RateLimit) (hB : 0 ≤ limit.burst)
    (run : List (ℚ × ℤ)) (hcosts : ∀ p ∈ run, 0 ≤ p.2) :
    LocalState.init.burstTokens.getD limit.burst = limit.burst ∧
    0 ≤ (localRun limit run LocalState.init).burstTokens.getD limit.burst ∧
    (localRun limit run LocalState.init).burstTokens.getD limit.burst
      ≤ limit.burst := by
  have h := localRun_tokens_bounds limit hB run LocalState.init hcosts
    (by simpa [LocalState.init] using hB) (by simp [LocalState.init])
  exact ⟨rfl, h.1, h.2⟩

/-- C10, witness at policy `(2, 10, 1)` and the instantaneous run
`[(0,1), (0,1), (0,1)]`. -/
theorem burst_tokens_invariant_witness :
    (0 ≤ (RateLimit.mk 2 10 1).burst ∧
     ∀ p ∈ [((0 : ℚ), (1 : ℤ)), (0, 1), (0, 1)], 0 ≤ p.2) ∧
    (LocalState.init.burstTokens.getD (RateLimit.mk 2 10 1).burst
       = (RateLimit.mk 2 10 1).burst ∧
     0 ≤ (localRun ⟨2, 10, 1⟩ [(0, 1), (0, 1), (0, 1)]
            LocalState.init).burstTokens.getD (RateLimit.mk 2 10 1).burst ∧
     (localRun ⟨2, 10, 1⟩ [(0, 1), (0, 1), (0, 1)]
        LocalState.init).burstTokens.getD (RateLimit.mk 2 10 1).burst
       ≤ (RateLimit.mk 2 10 1).burst) :=
  ⟨⟨by decide, by decide⟩,
   burst_tokens_invariant ⟨2, 10, 1⟩ (by decide)
     [(0, 1), (0, 1), (0, 1)] (by decide)⟩

/-- C7.  A cost larger than `requests` can never be admitted via the
regular path: when `burst < cost` as well, the check is denied from every
state reachable by a run of non-negative-cost checks, at every time, and
the denial records nothing (the bucket is merely pruned and the token
counter untouched) — cost is all-or-nothing, with no partial admission.
Moreover (last conjunct, for arbitrary states and times) any admission with
`cost > requests` can only be a burst-path admission. -/
theorem oversized_cost_all_or_nothing (limit : RateLimit) (cost : ℤ)
    (hB : 0 ≤ limit.burst) (hR : limit.requests < cost)
    (hBc : limit.burst < cost) (run : List (ℚ × ℤ))
    (hcosts : ∀ p ∈ run, 0 ≤ p.2) (now : ℚ) :
    ((localCheck limit cost now (localRun limit run LocalState.init)).1.allowed
        = false ∧
     (localCheck limit cost now (localRun limit run LocalState.init)).2.bucket
        = pruneBucket (now - (limit.window : ℚ))
            (localRun limit run LocalState.init).bucket ∧
     (localCheck limit cost now
          (localRun limit run LocalState.init)).2.burstTokens
        = (localRun limit run LocalState.init).burstTokens) ∧
    ∀ (st : LocalState) (t : ℚ),
      (localCheck limit cost t st).1.allowed = true →
      (localCheck limit cost t st).1.burstUsed = true := by
  have hreg : ∀ (st : LocalState) (t : ℚ),
      ¬ ((pruneBucket (t - (limit.window : ℚ)) st.bucket).length : ℤ) + cost
          ≤ limit.requests := by
    intro st t hle
    have : (0 : ℤ) ≤ ((pruneBucket (t - (limit.window : ℚ)) st.bucket).length : ℤ) :=
      Int.natCast_nonneg _
    omega
  constructor
  · have hbound := localRun_tokens_bounds limit hB run LocalState.init hcosts
      (by simpa [LocalState.init] using hB) (by simp [LocalState.init])
    have hb : ¬ cost ≤ (localRun limit run
        LocalState.init).burstTokens.getD limit.burst := by omega
    rw [localCheck_denied_eq limit cost now (localRun limit run LocalState.init)
      hb (hreg _ now)]
    exact ⟨rfl, rfl, rfl⟩
  · intro st t hallow
    by_cases hb : cost ≤ st.burstTokens.getD limit.burst
    · rw [localCheck_burst_eq limit cost t st hb]
    · rw [localCheck_denied_eq limit cost t st hb (hreg st t)] at hallow
      exact absurd hallow (by simp)

/-- C7, witness: policy `(1, 60, 0)`, cost 2, after the single-check run
`[(0, 1)]`, probed at time 0. -/
theorem oversized_cost_all_or_nothing_witness :
    (0 ≤ (RateLimit.mk 1 60 0).burst ∧ (RateLimit.mk 1 60 0).requests < 2 ∧
     (RateLimit.mk 1 60 0).burst < 2 ∧
     ∀ p ∈ [((0 : ℚ), (1 : ℤ))], 0 ≤ p.2) ∧
    ((localCheck ⟨1, 60, 0⟩ 2 0
         (localRun ⟨1, 60, 0⟩ [(0, 1)] LocalState.init)).1.allowed = false ∧
     (localCheck ⟨1, 60, 0⟩ 2 0
         (localRun ⟨1, 60, 0⟩ [(0, 1)] LocalState.init)).2.bucket
        = pruneBucket (0 - ((RateLimit.mk 1 60 0).window : ℚ))
            (localRun ⟨1, 60, 0⟩ [(0, 1)] LocalState.init).bucket ∧
     (localCheck ⟨1, 60, 0⟩ 2 0
         (localRun ⟨1, 60, 0⟩ [(0, 1)] LocalState.init)).2.burstTokens
        = (localRun ⟨1, 60, 0⟩ [(0, 1)] LocalState.init).burstTokens) ∧
    ∀ (st : LocalState) (t : ℚ),
      (localCheck ⟨1, 60, 0⟩ 2 t st).1.allowed = true →
      (localCheck ⟨1, 60, 0⟩ 2 t st).1.burstUsed = true :=
  ⟨⟨by decide, by decide, by decide, by decide⟩,
   (oversized_cost_all_or_nothing ⟨1, 60, 0⟩ 2 (by decide) (by decide)
      (by decide) [(0, 1)] (by decide) 0).1,
   (oversized_cost_all_or_nothing ⟨1, 60, 0⟩ 2 (by decide) (by decide)
      (by decide) [(0, 1)] (by decide) 0).2⟩

/-!
## Denial is free of charge
-/

theorem redisCheck_eq (limit : RateLimit) (cost : ℤ) (now : ℚ)
    (st : RedisState) :
    redisCheck limit cost now st
      = redisCommit limit cost now (redisPrunePhase limit now st).1
          (redisBurstRead limit now (redisPrunePhase limit now st).2)
          (redisPrunePhase limit now st).2 := rfl

theorem redisCommit_burst_allowed (limit : RateLimit) (cost : ℤ) (now : ℚ)
    (count : ℕ) (tokens : ℤ) (st : RedisState)
    (h : 0 < tokens ∧ cost ≤ tokens) :
    (redisCommit limit cost now count tokens st).1.allowed = true := by
  simp [redisCommit, h]

theorem redisCommit_regular_allowed (limit : RateLimit) (cost : ℤ) (now : ℚ)
    (count : ℕ) (tokens : ℤ) (st : RedisState)
    (h1 : ¬ (0 < tokens ∧ cost ≤ tokens))
    (h2 : (count : ℤ) + cost ≤ limit.requests) :
    (redisCommit limit cost now count tokens st).1.allowed = true := by
  simp [redisCommit, h1, h2]

theorem redisCommit_denied_eq (limit : RateLimit) (cost : ℤ) (now : ℚ)
    (count : ℕ) (tokens : ℤ) (st : RedisState)
    (h1 : ¬ (0 < tokens ∧ cost ≤ tokens))
    (h2 : ¬ (count : ℤ) + cost ≤ limit.requests) :
    redisCommit limit cost now count tokens st
      = (⟨false, 0, now + (limit.window : ℚ), false,
          some (max 1
            (match zsetMin st.zset with
             | none => limit.window
             | some t =>
                 min limit.window (pyInt ((limit.window : ℚ) - (now - t)))))⟩,
         st) := by
  simp [redisCommit, h1, h2]

theorem zremRange_idem (lo hi : ℚ) (l : List ℚ) :
    zremRange lo hi (zremRange lo hi l) = zremRange lo hi l := by
  unfold zremRange
  rw [List.filter_filter]
  congr 1
  funext s
  by_cases h : (decide (lo ≤ s) && decide (s ≤ hi)) = true <;> simp [h]

theorem liveZset_expiry_none (now : ℚ) (zs : List ℚ) (b : Option ℤ)
    (be : Option ℚ) : liveZset now ⟨zs, none, b, be⟩ = zs := rfl

theorem redisPrunePhase_mk (limit : RateLimit) (now : ℚ) (st : RedisState) :
    redisPrunePhase limit now st
      = ((zremRange 0 (now - (limit.window : ℚ)) (liveZset now st)).length,
         ⟨zremRange 0 (now - (limit.window : ℚ)) (liveZset now st),
          if (zremRange 0 (now - (limit.window : ℚ)) (liveZset now st)).isEmpty
            then none else liveZsetExpiry now st,
          st.burst, st.burstExpiry⟩) := rfl

theorem redisPrunePhase_idem (limit : RateLimit) (now : ℚ) (st : RedisState) :
    redisPrunePhase limit now (redisPrunePhase limit now st).2
      = redisPrunePhase limit now st := by
  by_cases he : (zremRange 0 (now - (limit.window : ℚ)) (liveZset now st)).isEmpty
  · have hz : zremRange 0 (now - (limit.window : ℚ)) (liveZset now st) = [] :=
      List.isEmpty_iff.mp he
    rw [redisPrunePhase_mk limit now st, redisPrunePhase_mk, hz]
    simp only [he, if_pos, List.isEmpty_nil, liveZset_expiry_none]
    rfl
  · by_cases hl : liveAt now st.zsetExpiry
    · have hlz : liveZset now st = st.zset := by simp [liveZset, hl]
      have hle : liveZsetExpiry now st = st.zsetExpiry := by
        simp [liveZsetExpiry, hl]
      rw [redisPrunePhase_mk limit now st, redisPrunePhase_mk]
      simp only [if_neg he, hle]
      have hlz2 :
          liveZset now
            ⟨zremRange 0 (now - (limit.window : ℚ)) (liveZset now st),
             st.zsetExpiry, st.burst, st.burstExpiry⟩
            = zremRange 0 (now - (limit.window : ℚ)) (liveZset now st) := by
        simp [liveZset, hl]
      have hle2 :
          liveZsetExpiry now
            ⟨zremRange 0 (now - (limit.window : ℚ)) (liveZset now st),
             st.zsetExpiry, st.burst, st.burstExpiry⟩
            = st.zsetExpiry := by
        simp [liveZsetExpiry, hl]
      rw [hlz2, hle2, zremRange_idem]
      simp only [if_neg he]
    · have hlz : liveZset now st = [] := by simp [liveZset, hl]
      rw [hlz] at he
      exact absurd (by rfl) he

theorem redisCheck_denied_eq (limit : RateLimit) (cost : ℤ) (now : ℚ)
    (st : RedisState)
    (hd : (redisCheck limit cost now st).1.allowed = false) :
    (redisCheck limit cost now st).2 = (redisPrunePhase limit now st).2 := by
  rw [redisCheck_eq] at hd ⊢
  by_cases h1 : 0 < redisBurstRead limit now (redisPrunePhase limit now st).2 ∧
      cost ≤ redisBurstRead limit now (redisPrunePhase limit now st).2
  · rw [redisCommit_burst_allowed limit cost now _ _ _ h1] at hd
    exact absurd hd (by simp)
  · by_cases h2 : ((redisPrunePhase limit now st).1 : ℤ) + cost ≤ limit.requests
    · rw [redisCommit_regular_allowed limit cost now _ _ _ h1 h2] at hd
      exact absurd hd (by simp)
    · rw [redisCommit_denied_eq limit cost now _ _ _ h1 h2]

/-- C5.  A denied check charges nothing.  Local backend: on denial the
per-key state is exactly the pruned bucket with the token entry untouched
(no timestamps recorded, no decrement), and re-issuing the identical check
at the same time returns the identical decision and state.  Redis backend:
on denial the store equals the post-prune store, whose burst key and TTL
are untouched, and re-issuing the identical check returns the identical
decision and state. -/
theorem denied_check_charges_nothing :
    (∀ (limit : RateLimit) (cost : ℤ) (now : ℚ) (st : LocalState),
       0 < cost →
       (localCheck limit cost now st).1.allowed = false →
       (localCheck limit cost now st).2
           = ⟨pruneBucket (now - (limit.window : ℚ)) st.bucket,
              st.burstTokens⟩ ∧
       localCheck limit cost now (localCheck limit cost now st).2
           = localCheck limit cost now st) ∧
    (∀ (limit : RateLimit) (cost : ℤ) (now : ℚ) (st : RedisState),
       0 < cost →
       (redisCheck limit cost now st).1.allowed = false →
       (redisCheck limit cost now st).2 = (redisPrunePhase limit now st).2 ∧
       (redisCheck limit cost now st).2.burst = st.burst ∧
       (redisCheck limit cost now st).2.burstExpiry = st.burstExpiry ∧
       redisCheck limit cost now (redisCheck limit cost now st).2
           = redisCheck limit cost now st) := by
  constructor
  · intro limit cost now st _ hd
    by_cases hb : cost ≤ st.burstTokens.getD limit.burst
    · rw [localCheck_burst_eq limit cost now st hb] at hd
      exact absurd hd (by simp)
    · by_cases hr : ((pruneBucket (now - (limit.window : ℚ)) st.bucket).length : ℤ)
          + cost ≤ limit.requests
      · rw [localCheck_regular_eq limit cost now st hb hr] at hd
        exact absurd hd (by simp)
      · have hst := localCheck_denied_eq limit cost now st hb hr
        refine ⟨by rw [hst], ?_⟩
        conv_lhs => rw [hst]
        exact localCheck_pruned limit cost now st
  · intro limit cost now st _ hd
    have hst := redisCheck_denied_eq limit cost now st hd
    refine ⟨hst, by rw [hst]; rfl, by rw [hst]; rfl, ?_⟩
    rw [hst, redisCheck_eq limit cost now (redisPrunePhase limit now st).2,
      redisPrunePhase_idem, ← redisCheck_eq]

/-- C5, witness: policy `(0, 60, 0)`, cost 1, fresh state at time 0 is
denied by both backends; the theorem's conclusions instantiated there. -/
theorem denied_check_charges_nothing_witness :
    ((0 : ℤ) < 1 ∧
     (localCheck ⟨0, 60, 0⟩ 1 0 LocalState.init).1.allowed = false ∧
     (redisCheck ⟨0, 60, 0⟩ 1 0 RedisState.init).1.allowed = false) ∧
    ((localCheck ⟨0, 60, 0⟩ 1 0 LocalState.init).2
        = ⟨pruneBucket (0 - ((RateLimit.mk 0 60 0).window : ℚ))
             LocalState.init.bucket, LocalState.init.burstTokens⟩ ∧
     localCheck ⟨0, 60, 0⟩ 1 0 (localCheck ⟨0, 60, 0⟩ 1 0 LocalState.init).2
        = localCheck ⟨0, 60, 0⟩ 1 0 LocalState.init) ∧
    ((redisCheck ⟨0, 60, 0⟩ 1 0 RedisState.init).2
        = (redisPrunePhase ⟨0, 60, 0⟩ 0 RedisState.init).2 ∧
     (redisCheck ⟨0, 60, 0⟩ 1 0 RedisState.init).2.burst
        = RedisState.init.burst ∧
     (redisCheck ⟨0, 60, 0⟩ 1 0 RedisState.init).2.burstExpiry
        = RedisState.init.burstExpiry ∧
     redisCheck ⟨0, 60, 0⟩ 1 0 (redisCheck ⟨0, 60, 0⟩ 1 0 RedisState.init).2
        = redisCheck ⟨0, 60, 0⟩ 1 0 RedisState.init) :=
  ⟨⟨by decide, by with_unfolding_all decide, by with_unfolding_all decide⟩,
   denied_check_charges_nothing.1 ⟨0, 60, 0⟩ 1 0 LocalState.init
     (by decide) (by with_unfolding_all decide),
   denied_check_charges_nothing.2 ⟨0, 60, 0⟩ 1 0 RedisState.init
     (by decide) (by with_unfolding_all decide)⟩

/-!
## Saturation implies denial
-/

theorem satInv_init (limit : RateLimit) (now : ℚ) (hR : 0 ≤ limit.requests)
    (hB : 0 ≤ limit.burst) : satInv limit now 0 LocalState.init := by
  refine ⟨rfl, ?_, ?_, ?_⟩ <;>
    simp only [LocalState.init, Option.getD_none, Nat.cast_zero, zero_add] <;>
    omega

theorem satInv_step (limit : RateLimit) (now : ℚ) (hW : 1 ≤ limit.window)
    (hB : 0 ≤ limit.burst) (k : ℕ) (st : LocalState)
    (hinv : satInv limit now k st)
    (hallow : (localCheck limit 1 now st).1.allowed = true) :
    satInv limit now (k + 1) (localCheck limit 1 now st).2 := by
  obtain ⟨hb, h0, h1, hsum⟩ := hinv
  have hWq : (1 : ℚ) ≤ (limit.window : ℚ) := by exact_mod_cast hW
  have hnl : ¬ now < now - (limit.window : ℚ) := by linarith
  have hpr : pruneBucket (now - (limit.window : ℚ)) st.bucket
      = List.replicate k now := by
    rw [hb]; exact pruneBucket_replicate _ _ hnl k
  by_cases hbt : (1 : ℤ) ≤ st.burstTokens.getD limit.burst
  · rw [localCheck_burst_eq limit 1 now st hbt]
    refine ⟨?_, ?_, ?_, ?_⟩
    · rw [hpr]
      exact (List.replicate_succ' k now).symm
    · simp only [Option.getD_some]; omega
    · simp only [Option.getD_some]; omega
    · simp only [Option.getD_some]; push_cast; omega
  · have hreg : ((pruneBucket (now - (limit.window : ℚ)) st.bucket).length : ℤ)
        + 1 ≤ limit.requests := by
      by_contra hcon
      rw [localCheck_denied_eq limit 1 now st hbt hcon] at hallow
      exact absurd hallow (by simp)
    rw [localCheck_regular_eq limit 1 now st hbt hreg]
    have hk : ((pruneBucket (now - (limit.window : ℚ)) st.bucket).length : ℤ)
        = (k : ℤ) := by rw [hpr, List.length_replicate]
    refine ⟨?_, ?_, ?_, ?_⟩
    · rw [hpr]
      have : (1 : ℤ).toNat = 1 := rfl
      rw [this]
      exact (List.replicate_succ' k now).symm
    · simp only [Option.getD_some]; omega
    · simp only [Option.getD_some]; omega
    · simp only [Option.getD_some]; push_cast; omega

theorem satInv_run (limit : RateLimit) (now : ℚ) (hW : 1 ≤ limit.window)
    (hB : 0 ≤ limit.burst) :
    ∀ (k j : ℕ) (st : LocalState), satInv limit now j st →
      localDecisions limit (List.replicate k (now, 1)) st
        = List.replicate k true →
      satInv limit now (j + k)
        (localRun limit (List.replicate k (now, 1)) st) := by
  intro k
  induction k with
  | zero => intro j st hinv _; simpa [localRun] using hinv
  | succ k ih =>
      intro j st hinv hdec
      rw [List.replicate_succ] at hdec ⊢
      simp only [localDecisions, List.replicate_succ] at hdec
      injection hdec with hall hrest
      have hstep := satInv_step limit now hW hB j st hinv hall
      have htail := ih (j + 1) (localCheck limit 1 now st).2 hstep hrest
      have heq : j + 1 + k = j + (k + 1) := by omega
      rw [heq] at htail
      simpa only [localRun] using htail

/-- C4.  For every policy `(requests=R, window=W, burst=B)` with `W ≥ 1`
(spec §3 requires a positive window), if `R+B` instantaneous single-cost
checks on a fresh key are all admitted, the next cost-1 check at the same
instant is denied and the denial's `retry_after` is exactly `W`, which
lies in `[1, W]`. -/
theorem saturation_implies_denial (R B : ℕ) (W : ℤ) (hW : 1 ≤ W) (now : ℚ)
    (hadm : localDecisions ⟨(R : ℤ), W, (B : ℤ)⟩
        (List.replicate (R + B) (now, 1)) LocalState.init
        = List.replicate (R + B) true) :
    (localCheck ⟨(R : ℤ), W, (B : ℤ)⟩ 1 now
        (localRun ⟨(R : ℤ), W, (B : ℤ)⟩ (List.replicate (R + B) (now, 1))
          LocalState.init)).1.allowed = false ∧
    ∃ r, (localCheck ⟨(R : ℤ), W, (B : ℤ)⟩ 1 now
        (localRun ⟨(R : ℤ), W, (B : ℤ)⟩ (List.replicate (R + B) (now, 1))
          LocalState.init)).1.retryAfter = some r ∧ 1 ≤ r ∧ r ≤ W := by
  have hPw : (⟨(R : ℤ), W, (B : ℤ)⟩ : RateLimit).window = W := rfl
  have hPr : (⟨(R : ℤ), W, (B : ℤ)⟩ : RateLimit).requests = (R : ℤ) := rfl
  have hPb : (⟨(R : ℤ), W, (B : ℤ)⟩ : RateLimit).burst = (B : ℤ) := rfl
  have hB : (0 : ℤ) ≤ ((B : ℤ)) := Int.natCast_nonneg B
  have hR : (0 : ℤ) ≤ ((R : ℤ)) := Int.natCast_nonneg R
  have hfin := satInv_run ⟨(R : ℤ), W, (B : ℤ)⟩ now hW hB (R + B) 0
    LocalState.init (satInv_init _ now hR hB) hadm
  rw [Nat.zero_add] at hfin
  obtain ⟨hb, h0, h1, hsum⟩ := hfin
  rw [hPb] at h0 h1
  rw [hPb, hPr] at hsum
  set st := localRun ⟨(R : ℤ), W, (B : ℤ)⟩ (List.replicate (R + B) (now, 1))
    LocalState.init with hst
  have htok : st.burstTokens.getD ((B : ℤ)) = 0 := by push_cast at hsum; omega
  have hWq : (1 : ℚ) ≤ ((W : ℤ) : ℚ) := by exact_mod_cast hW
  have hnl : ¬ now < now - ((W : ℤ) : ℚ) := by linarith
  have hpr : pruneBucket (now - ((W : ℤ) : ℚ)) st.bucket
      = List.replicate (R + B) now := by
    rw [hb]; exact pruneBucket_replicate _ _ hnl (R + B)
  have hbt : ¬ (1 : ℤ) ≤ st.burstTokens.getD ((B : ℤ)) := by omega
  have hreg : ¬ ((pruneBucket (now - ((W : ℤ) : ℚ)) st.bucket).length : ℤ)
      + 1 ≤ ((R : ℤ)) := by
    rw [hpr, List.length_replicate]
    push_cast
    omega
  rw [localCheck_denied_eq ⟨(R : ℤ), W, (B : ℤ)⟩ 1 now st hbt hreg]
  simp only [hPw, hPr, hPb]
  refine ⟨trivial, W, ?_, hW, le_refl W⟩
  have hmatch :
      (match pruneBucket (now - ((W : ℤ) : ℚ)) st.bucket with
       | [] => W
       | t :: _ => min W (pyInt (((W : ℤ) : ℚ) - (now - t)))) = W := by
    rw [hpr]
    cases hn : R + B with
    | zero => rfl
    | succ n =>
        rw [List.replicate_succ]
        have harg : (((W : ℤ)) : ℚ) - (now - now) = ((W : ℤ) : ℚ) := by ring
        simp only [harg, pyInt_intCast, min_self]
  rw [hmatch, max_eq_right hW]

/-- C4, witness at the spec's own scenario: policy `(2, 10, 1)`, three
instantaneous admitted checks, then denial with `retry_after = 10`. -/
theorem saturation_implies_denial_witness :
    ((1 : ℤ) ≤ 10 ∧
     localDecisions ⟨((2 : ℕ) : ℤ), (10 : ℤ), ((1 : ℕ) : ℤ)⟩
        (List.replicate (2 + 1) ((0 : ℚ), (1 : ℤ))) LocalState.init
        = List.replicate (2 + 1) true) ∧
    ((localCheck ⟨((2 : ℕ) : ℤ), (10 : ℤ), ((1 : ℕ) : ℤ)⟩ 1 0
        (localRun ⟨((2 : ℕ) : ℤ), (10 : ℤ), ((1 : ℕ) : ℤ)⟩
          (List.replicate (2 + 1) ((0 : ℚ), (1 : ℤ)))
          LocalState.init)).1.allowed = false ∧
     ∃ r, (localCheck ⟨((2 : ℕ) : ℤ), (10 : ℤ), ((1 : ℕ) : ℤ)⟩ 1 0
        (localRun ⟨((2 : ℕ) : ℤ), (10 : ℤ), ((1 : ℕ) : ℤ)⟩
          (List.replicate (2 + 1) ((0 : ℚ), (1 : ℤ)))
          LocalState.init)).1.retryAfter = some r ∧ 1 ≤ r ∧ r ≤ 10) :=
  ⟨⟨by decide, by with_unfolding_all decide⟩,
   saturation_implies_denial 2 1 10 (by decide) 0
     (by with_unfolding_all decide)⟩

end Miles
